import Mathlib

/-!
# VWO_FME umbrella header

A shallow embedding of `VWO-FME/VWO_FME.h`.  The header holds no function: it
declares two objects, `VWO_FMEVersionNumber` and `VWO_FMEVersionString`.  The
embedding therefore has two layers:

* the header itself, item by item, as data (`VWO_FME_h`), with the C
  declarations as records (`Declaration`);
* what a consumer that imports the header can write against the two
  declarations (`Access`, `permitted`, `compiles`), and what its accesses do to
  the loaded module (`Image`, `step`, `run`, `observe`).

A `double` is held as its 64-bit pattern and an `unsigned char` as its value,
both as natural numbers with explicit bounds.
-/

namespace VWO_FME

/-! ## The declarations of the header -/

/-- The type specifiers that occur in the header. -/
inductive CBase
  | double
  | unsignedChar
  deriving DecidableEq, Repr

/-- The number of values of an object of the base type: a `double` has 64 bits,
an `unsigned char` has 8 (`UCHAR_MAX + 1`). -/
def CBase.bound : CBase → Nat
  | .double => 2 ^ 64
  | .unsignedChar => 2 ^ 8

/-- The largest value of an `unsigned char`. -/
def UCHAR_MAX : Nat := 255

/-- Storage-class specifier of a file-scope declaration. -/
inductive StorageClass
  | unspecified
  | externDecl
  deriving DecidableEq, Repr

/-- The contents of an object: one cell for a scalar, the cells in order for an
array. -/
inductive Value
  | scalar (x : Nat)
  | array (xs : List Nat)
  deriving DecidableEq, Repr

/-- A file-scope object declaration
`<storage> <const>? <base> <name> <[len?]>? <= init>? ;`.
`array = none` is a scalar declarator, `array = some none` is `name[]` and
`array = some (some n)` is `name[n]`. -/
structure Declaration where
  storage : StorageClass
  isConst : Bool
  base : CBase
  name : String
  array : Option (Option Nat)
  init : Option Value
  deriving DecidableEq, Repr

/-- One item of a header file. -/
inductive Item
  | comment (text : String)
  | importDirective (path : String)
  | declaration (d : Declaration)
  deriving DecidableEq, Repr

/-- Modelled from the spec: the expansion of Foundation's `FOUNDATION_EXPORT`,
which is not part of the repository.  The spec calls the two declarations
"exported symbol declarations" that a linker discovers when the module is
loaded or linked, "set by the build tooling": external linkage, no storage
allocated by the header, which is the C specifier for an external
declaration. -/
def FOUNDATION_EXPORT : StorageClass := StorageClass.externDecl

/-- The declaration `FOUNDATION_EXPORT double VWO_FMEVersionNumber;`. -/
def VWO_FMEVersionNumber_decl : Declaration :=
  { storage := FOUNDATION_EXPORT
    isConst := false
    base := CBase.double
    name := "VWO_FMEVersionNumber"
    array := none
    init := none }

/-- The declaration
`FOUNDATION_EXPORT const unsigned char VWO_FMEVersionString[];`. -/
def VWO_FMEVersionString_decl : Declaration :=
  { storage := FOUNDATION_EXPORT
    isConst := true
    base := CBase.unsignedChar
    name := "VWO_FMEVersionString"
    array := some none
    init := none }

/-- The header `VWO_FME.h`, item by item in file order: the licence comment, the
Foundation import, and the two commented declarations, followed by the comment
that says where further public headers would be imported. -/
def VWO_FME_h : List Item :=
  [ Item.comment "Copyright 2024-2025 Wingify Software Pvt. Ltd. Licensed under the Apache License, Version 2.0",
    Item.importDirective "Foundation/Foundation.h",
    Item.comment "! Project version number for VWO_FME.",
    Item.declaration VWO_FMEVersionNumber_decl,
    Item.comment "! Project version string for VWO_FME.",
    Item.declaration VWO_FMEVersionString_decl,
    Item.comment "In this header, you should import all the public headers of your framework using statements like #import <VWO_FME/PublicHeader.h>" ]

/-- The object declarations of a header, in file order. -/
def declarations : List Item → List Declaration
  | [] => []
  | Item.declaration d :: rest => d :: declarations rest
  | _ :: rest => declarations rest

/-- The paths of the import directives of a header, in file order. -/
def imports : List Item → List String
  | [] => []
  | Item.importDirective p :: rest => p :: imports rest
  | _ :: rest => imports rest

/-- The imports of a header that name a header of the framework `fw`, that is
`<fw/...>`. -/
def frameworkImports (fw : String) (h : List Item) : List String :=
  (imports h).filter (fun p => (fw.toList ++ ['/']).isPrefixOf p.toList)

/-- The declaration of `name` in the header, if there is one. -/
def declarationOf (h : List Item) (name : String) : Option Declaration :=
  (declarations h).find? (fun d => d.name == name)

/-- A file-scope declaration is a definition unless it has the external
storage-class specifier and no initialiser. -/
def Declaration.isDefinition (d : Declaration) : Bool :=
  d.storage != StorageClass.externDecl || d.init.isSome

/-! ## The loaded module -/

/-- The objects behind the two symbols in a loaded module: the bit pattern of
the `double` and the bytes of the array. -/
structure Image where
  VWO_FMEVersionNumber : Nat
  VWO_FMEVersionString : List Nat
  deriving DecidableEq, Repr

/-- The contents the image holds for a symbol. -/
def Image.valueOf (m : Image) (name : String) : Option Value :=
  if name == "VWO_FMEVersionNumber" then some (Value.scalar m.VWO_FMEVersionNumber)
  else if name == "VWO_FMEVersionString" then some (Value.array m.VWO_FMEVersionString)
  else none

/-- The declaration is compatible with an object holding `v`: the shape and the
range of the cells are those of the declared type, a declared array length is
the length of the object, and an initialiser is the content. -/
def Declaration.admits (d : Declaration) (v : Value) : Bool :=
  (match d.init with
   | none => true
   | some i => i == v) &&
  (match d.array, v with
   | none, Value.scalar x => decide (x < d.base.bound)
   | some len, Value.array xs =>
       xs.all (fun b => decide (b < d.base.bound)) &&
       (match len with
        | none => true
        | some n => xs.length == n)
   | _, _ => false)

/-- The image provides every object the header declares, each compatible with
its declaration. -/
def Conforms (h : List Item) (m : Image) : Bool :=
  (declarations h).all (fun d =>
    match m.valueOf d.name with
    | none => false
    | some v => d.admits v)

/-- The spec names the read of `VWO_FMEVersionNumber` `getVersionNumber()`. -/
def getVersionNumber (m : Image) : Nat := m.VWO_FMEVersionNumber

/-- The spec names the read of `VWO_FMEVersionString` `getVersionString()`. -/
def getVersionString (m : Image) : List Nat := m.VWO_FMEVersionString

/-! ## What a consumer can do with the two objects -/

/-- An access of a consumer to one of the two objects through its declared
name: a load of the object, the direct assignment `VWO_FMEVersionNumber = bits`,
or the direct assignment `VWO_FMEVersionString[i] = b`. -/
inductive Access
  | loadNumber
  | loadString
  | storeNumber (bits : Nat)
  | storeStringAt (i : Nat) (b : Nat)
  deriving DecidableEq, Repr

/-- The symbol an access names. -/
def Access.symbol : Access → String
  | .loadNumber => "VWO_FMEVersionNumber"
  | .loadString => "VWO_FMEVersionString"
  | .storeNumber _ => "VWO_FMEVersionNumber"
  | .storeStringAt _ _ => "VWO_FMEVersionString"

/-- The access compiles against the header: the symbol is declared, and a store
has a modifiable lvalue on its left, which is an object of a type that is not
const-qualified (a scalar for a plain assignment, an array element for an
indexed one). -/
def permitted (h : List Item) (a : Access) : Bool :=
  match declarationOf h a.symbol with
  | none => false
  | some d =>
    match a with
    | .loadNumber => true
    | .loadString => true
    | .storeNumber _ => !d.isConst && d.array.isNone
    | .storeStringAt _ _ => !d.isConst && d.array.isSome

/-- A consumer program compiles when each of its accesses does. -/
def compiles (h : List Item) (prog : List Access) : Bool :=
  prog.all (permitted h)

/-- What can go wrong when an access runs. -/
inductive Fault
  | readOnlyStore
  deriving DecidableEq, Repr

/-- Modelled from the spec: the definitions of the two objects, which the header
declares and the source does not contain.  The spec has both values
"immutable", "set once at build time (not at runtime)", "never mutated" and
"read-only constants": the objects lie in storage that cannot be written, so a
store to either of them, whatever it would write, changes nothing and is a
fault. -/
def store (_m : Image) : Except Fault (Image × Option Value) :=
  .error Fault.readOnlyStore

/-- One access on the loaded module: the module afterwards and the value read,
if the access is a load.  A load yields what the module holds and changes
nothing; what a store does is the matter of `store`. -/
def step (m : Image) : Access → Except Fault (Image × Option Value)
  | .loadNumber => .ok (m, some (Value.scalar (getVersionNumber m)))
  | .loadString => .ok (m, some (Value.array (getVersionString m)))
  | .storeNumber _ => store m
  | .storeStringAt _ _ => store m

/-- A consumer program on the loaded module: the module afterwards and the
values read, in order. -/
def run (m : Image) : List Access → Except Fault (Image × List Value)
  | [] => .ok (m, [])
  | a :: rest =>
    match step m a with
    | .error e => .error e
    | .ok (m1, out) =>
      match run m1 rest with
      | .error e => .error e
      | .ok (m2, outs) => .ok (m2, out.toList ++ outs)

/-- The values a consumer program reads on the loaded module, in order, up to
its end or to the access that faults. -/
def observe (m : Image) : List Access → List Value
  | [] => []
  | a :: rest =>
    match step m a with
    | .error _ => []
    | .ok (m1, out) => out.toList ++ observe m1 rest

/-- The reads of the version number among the values read. -/
def numberReads : List Value → List Nat
  | [] => []
  | Value.scalar x :: rest => x :: numberReads rest
  | _ :: rest => numberReads rest

/-- The reads of the version string among the values read. -/
def stringReads : List Value → List (List Nat)
  | [] => []
  | Value.array xs :: rest => xs :: stringReads rest
  | _ :: rest => stringReads rest

/-- The bit pattern of the double `1.0`. -/
def one_bits : Nat := 0x3FF0000000000000

/-- The bit pattern of the double `2.0`. -/
def two_bits : Nat := 0x4000000000000000

/-- A loaded module whose number is `1.0` and whose string is `"1"` with its
terminator. -/
def sampleImage : Image := { VWO_FMEVersionNumber := one_bits, VWO_FMEVersionString := [49, 0] }

/-! ## Lemmas on the embedding -/

theorem permitted_loadNumber : permitted VWO_FME_h Access.loadNumber = true := by rfl

theorem permitted_loadString : permitted VWO_FME_h Access.loadString = true := by rfl

theorem permitted_storeNumber (bits : Nat) :
    permitted VWO_FME_h (Access.storeNumber bits) = true := by rfl

theorem permitted_storeStringAt (i b : Nat) :
    permitted VWO_FME_h (Access.storeStringAt i b) = false := by rfl

/-- Every value a program reads is the one the module was loaded with. -/
theorem observe_reads (prog : List Access) (m : Image) :
    (∀ x ∈ numberReads (observe m prog), x = m.VWO_FMEVersionNumber) ∧
    (∀ x ∈ stringReads (observe m prog), x = m.VWO_FMEVersionString) := by
  induction prog with
  | nil => exact ⟨by simp [observe, numberReads], by simp [observe, stringReads]⟩
  | cons a rest ih =>
    obtain ⟨ihn, ihs⟩ := ih
    cases a with
    | loadNumber =>
      have ho : observe m (Access.loadNumber :: rest)
          = Value.scalar m.VWO_FMEVersionNumber :: observe m rest := rfl
      rw [ho]
      refine ⟨?_, ?_⟩
      · intro x hx
        simp only [numberReads, List.mem_cons] at hx
        rcases hx with h | h
        · exact h
        · exact ihn x h
      · intro x hx
        exact ihs x (by simpa [stringReads] using hx)
    | loadString =>
      have ho : observe m (Access.loadString :: rest)
          = Value.array m.VWO_FMEVersionString :: observe m rest := rfl
      rw [ho]
      refine ⟨?_, ?_⟩
      · intro x hx
        exact ihn x (by simpa [numberReads] using hx)
      · intro x hx
        simp only [stringReads, List.mem_cons] at hx
        rcases hx with h | h
        · exact h
        · exact ihs x h
    | storeNumber bits =>
      have ho : observe m (Access.storeNumber bits :: rest) = [] := rfl
      rw [ho]
      exact ⟨by simp [numberReads], by simp [stringReads]⟩
    | storeStringAt i b =>
      have ho : observe m (Access.storeStringAt i b :: rest) = [] := rfl
      rw [ho]
      exact ⟨by simp [numberReads], by simp [stringReads]⟩

/-- A program that runs to its end leaves the module as it was loaded, and the
values it returns are the values observed. -/
theorem run_observe (prog : List Access) (m m2 : Image) (outs : List Value)
    (hrun : run m prog = .ok (m2, outs)) : m2 = m ∧ observe m prog = outs := by
  induction prog generalizing m2 outs with
  | nil =>
    simp only [run, Except.ok.injEq, Prod.mk.injEq] at hrun
    exact ⟨hrun.1.symm, by simpa [observe] using hrun.2⟩
  | cons a rest ih =>
    cases a with
    | loadNumber =>
      cases hr : run m rest with
      | error e => simp [run, step, hr] at hrun
      | ok r =>
        obtain ⟨m3, outs3⟩ := r
        obtain ⟨h1, h2⟩ := ih m3 outs3 hr
        simp only [run, step, hr, Except.ok.injEq, Prod.mk.injEq] at hrun
        refine ⟨by rw [← hrun.1, h1], ?_⟩
        rw [← hrun.2]
        simp [observe, step, h2]
    | loadString =>
      cases hr : run m rest with
      | error e => simp [run, step, hr] at hrun
      | ok r =>
        obtain ⟨m3, outs3⟩ := r
        obtain ⟨h1, h2⟩ := ih m3 outs3 hr
        simp only [run, step, hr, Except.ok.injEq, Prod.mk.injEq] at hrun
        refine ⟨by rw [← hrun.1, h1], ?_⟩
        rw [← hrun.2]
        simp [observe, step, h2]
    | storeNumber bits => simp [run, step, store] at hrun
    | storeStringAt i b => simp [run, step, store] at hrun

/-- A program of loads reads the loaded number once per load of the number and
the loaded string once per load of the string. -/
theorem observe_loads (prog : List Access) (m : Image)
    (hl : ∀ a ∈ prog, a = Access.loadNumber ∨ a = Access.loadString) :
    numberReads (observe m prog)
      = List.replicate (prog.count Access.loadNumber) m.VWO_FMEVersionNumber ∧
    stringReads (observe m prog)
      = List.replicate (prog.count Access.loadString) m.VWO_FMEVersionString := by
  induction prog with
  | nil => exact ⟨rfl, rfl⟩
  | cons a rest ih =>
    obtain ⟨ihn, ihs⟩ := ih (fun x hx => hl x (List.mem_cons_of_mem _ hx))
    rcases hl a (List.mem_cons_self _ _) with h | h
    · subst h
      have ho : observe m (Access.loadNumber :: rest)
          = Value.scalar m.VWO_FMEVersionNumber :: observe m rest := rfl
      rw [ho]
      refine ⟨?_, ?_⟩
      · simp [numberReads, ihn, List.replicate_succ]
      · simp [stringReads, ihs]
    · subst h
      have ho : observe m (Access.loadString :: rest)
          = Value.array m.VWO_FMEVersionString :: observe m rest := rfl
      rw [ho]
      refine ⟨?_, ?_⟩
      · simp [numberReads, ihn]
      · simp [stringReads, ihs, List.replicate_succ]

/-- For this header, conformance of an image is the range of the two declared
types and nothing more. -/
theorem conforms_iff (m : Image) :
    Conforms VWO_FME_h m = true ↔
      m.VWO_FMEVersionNumber < 2 ^ 64 ∧ ∀ b ∈ m.VWO_FMEVersionString, b ≤ UCHAR_MAX := by
  have hd : declarations VWO_FME_h = [VWO_FMEVersionNumber_decl, VWO_FMEVersionString_decl] := rfl
  have h1 : m.valueOf VWO_FMEVersionNumber_decl.name = some (Value.scalar m.VWO_FMEVersionNumber) := rfl
  have h2 : m.valueOf VWO_FMEVersionString_decl.name = some (Value.array m.VWO_FMEVersionString) := rfl
  simp only [Conforms, hd, List.all_cons, List.all_nil, h1, h2, Bool.and_true, Bool.and_eq_true]
  simp only [Declaration.admits, VWO_FMEVersionNumber_decl, VWO_FMEVersionString_decl,
    CBase.bound, UCHAR_MAX, Bool.true_and, Bool.and_true, decide_eq_true_eq, List.all_eq_true]
  constructor
  · rintro ⟨ha, hb⟩
    exact ⟨ha, fun b hb2 => by have := hb b hb2; omega⟩
  · rintro ⟨ha, hb⟩
    exact ⟨ha, fun b hb2 => by have := hb b hb2; omega⟩

/-- A program of loads runs to its end, leaves the module as it was and yields
one value per load. -/
theorem run_loads (prog : List Access) (m : Image)
    (hl : ∀ a ∈ prog, a = Access.loadNumber ∨ a = Access.loadString) :
    ∃ outs, run m prog = .ok (m, outs) ∧ outs.length = prog.length := by
  induction prog with
  | nil => exact ⟨[], rfl, rfl⟩
  | cons a rest ih =>
    obtain ⟨outs, hrun, hlen⟩ := ih (fun x hx => hl x (List.mem_cons_of_mem _ hx))
    rcases hl a (List.mem_cons_self _ _) with h | h
    · subst h
      exact ⟨Value.scalar (getVersionNumber m) :: outs, by simp [run, step, hrun], by simp [hlen]⟩
    · subst h
      exact ⟨Value.array (getVersionString m) :: outs, by simp [run, step, hrun], by simp [hlen]⟩

/-! ## The claims -/

/-- C1 (counterexample): the header does not declare both symbols const.
`VWO_FMEVersionNumber` is declared `double` without `const`, and the direct
assignment `VWO_FMEVersionNumber = 2.0` compiles against the header. -/
theorem versionNumber_assignable_counterexample :
    ¬ (∀ d ∈ declarations VWO_FME_h, d.isConst = true) ∧
    (declarationOf VWO_FME_h "VWO_FMEVersionNumber").map (fun d => d.isConst) = some false ∧
    permitted VWO_FME_h (Access.storeNumber two_bits) = true ∧
    compiles VWO_FME_h [Access.storeNumber two_bits] = true := by
  refine ⟨?_, rfl, rfl, rfl⟩
  intro h
  have := h VWO_FMEVersionNumber_decl (by decide)
  exact absurd this (by decide)

/-- C1 (amended): of the two declarations of the header exactly
`VWO_FMEVersionString` is const, and no direct assignment to an element of it
compiles against the header.  `VWO_FMEVersionNumber` is declared without const,
and every direct assignment to it compiles against the header. -/
theorem const_only_versionString :
    (∀ d ∈ declarations VWO_FME_h, d.isConst = true ↔ d.name = "VWO_FMEVersionString") ∧
    (declarationOf VWO_FME_h "VWO_FMEVersionString").map (fun d => d.isConst) = some true ∧
    (declarationOf VWO_FME_h "VWO_FMEVersionNumber").map (fun d => d.isConst) = some false ∧
    (∀ i b, permitted VWO_FME_h (Access.storeStringAt i b) = false) ∧
    (∀ bits, permitted VWO_FME_h (Access.storeNumber bits) = true) := by
  refine ⟨?_, rfl, rfl, permitted_storeStringAt, permitted_storeNumber⟩
  intro d hd
  have hd2 : d = VWO_FMEVersionNumber_decl ∨ d = VWO_FMEVersionString_decl := by
    simpa [VWO_FME_h, declarations] using hd
  rcases hd2 with h | h <;> subst h <;> decide

/-- C2: reads take no input and are constant.  On every loaded module and in
every consumer program, every read of the number returns the number the module
was loaded with and every read of the string returns the byte sequence it was
loaded with, so any two reads of the number agree and any two reads of the
string agree.  A program that runs to its end leaves the module as it was
loaded and returns the values observed, and a program of loads reads the
loaded number once per load of the number and the loaded string once per load
of the string. -/
theorem reads_constant (prog : List Access) (m : Image) :
    (∀ x ∈ numberReads (observe m prog), x = m.VWO_FMEVersionNumber) ∧
    (∀ x ∈ stringReads (observe m prog), x = m.VWO_FMEVersionString) ∧
    (∀ x ∈ numberReads (observe m prog), ∀ y ∈ numberReads (observe m prog), x = y) ∧
    (∀ x ∈ stringReads (observe m prog), ∀ y ∈ stringReads (observe m prog), x = y) ∧
    (∀ m2 outs, run m prog = .ok (m2, outs) → m2 = m ∧ observe m prog = outs) ∧
    ((∀ a ∈ prog, a = Access.loadNumber ∨ a = Access.loadString) →
      numberReads (observe m prog)
        = List.replicate (prog.count Access.loadNumber) m.VWO_FMEVersionNumber ∧
      stringReads (observe m prog)
        = List.replicate (prog.count Access.loadString) m.VWO_FMEVersionString) := by
  obtain ⟨hn, hs⟩ := observe_reads prog m
  refine ⟨hn, hs, ?_, ?_, fun m2 outs hrun => run_observe prog m m2 outs hrun,
    fun hl => observe_loads prog m hl⟩
  · intro x hx y hy
    rw [hn x hx, hn y hy]
  · intro x hx y hy
    rw [hs x hx, hs y hy]

/-- C2, at a program of four loads: the two reads of the number are both `1.0`
and the two reads of the string are both `"1"` with its terminator. -/
theorem reads_constant_witness :
    run sampleImage [Access.loadNumber, Access.loadString, Access.loadNumber, Access.loadString]
      = .ok (sampleImage,
          [Value.scalar one_bits, Value.array [49, 0], Value.scalar one_bits,
           Value.array [49, 0]]) ∧
    numberReads
        (observe sampleImage
          [Access.loadNumber, Access.loadString, Access.loadNumber, Access.loadString])
      = [one_bits, one_bits] ∧
    stringReads
        (observe sampleImage
          [Access.loadNumber, Access.loadString, Access.loadNumber, Access.loadString])
      = [[49, 0], [49, 0]] :=
  ⟨rfl,
   ((reads_constant
      [Access.loadNumber, Access.loadString, Access.loadNumber, Access.loadString]
      sampleImage).2.2.2.2.2 (by decide)).1,
   ((reads_constant
      [Access.loadNumber, Access.loadString, Access.loadNumber, Access.loadString]
      sampleImage).2.2.2.2.2 (by decide)).2⟩

/-- C4: reading the version metadata cannot fail.  On every loaded module,
whatever it holds, both loads compile against the header, each returns a value
(the number, the byte sequence) with no fault and leaves the module as it was,
and every program of loads runs to its end with the module as it was and one
value per load. -/
theorem reads_total (m : Image) :
    permitted VWO_FME_h Access.loadNumber = true ∧
    permitted VWO_FME_h Access.loadString = true ∧
    step m Access.loadNumber = .ok (m, some (Value.scalar (getVersionNumber m))) ∧
    step m Access.loadString = .ok (m, some (Value.array (getVersionString m))) ∧
    (∀ prog : List Access, (∀ a ∈ prog, a = Access.loadNumber ∨ a = Access.loadString) →
      ∃ outs, run m prog = .ok (m, outs) ∧ outs.length = prog.length) :=
  ⟨rfl, rfl, rfl, rfl, fun prog hl => run_loads prog m hl⟩

/-- C4, at a program of two loads on a module with an empty string. -/
theorem reads_total_witness :
    ∃ outs, run { VWO_FMEVersionNumber := 0, VWO_FMEVersionString := [] }
        [Access.loadString, Access.loadNumber]
      = .ok ({ VWO_FMEVersionNumber := 0, VWO_FMEVersionString := [] }, outs) ∧
      outs.length = 2 :=
  (reads_total { VWO_FMEVersionNumber := 0, VWO_FMEVersionString := [] }).2.2.2.2
    [Access.loadString, Access.loadNumber] (by decide)

/-- C6: the header declares exactly two objects, both with `FOUNDATION_EXPORT`:
`VWO_FMEVersionNumber`, a scalar `double`, and `VWO_FMEVersionString`, an array
of `unsigned char`.  Its one import is Foundation, it imports no header of the
framework `VWO_FME`, and every byte of the string of a module that conforms to
the header is in 0..255. -/
theorem public_surface :
    declarations VWO_FME_h = [VWO_FMEVersionNumber_decl, VWO_FMEVersionString_decl] ∧
    (declarations VWO_FME_h).map (fun d => (d.storage, d.name, d.base, d.array.isSome))
      = [(FOUNDATION_EXPORT, "VWO_FMEVersionNumber", CBase.double, false),
         (FOUNDATION_EXPORT, "VWO_FMEVersionString", CBase.unsignedChar, true)] ∧
    imports VWO_FME_h = ["Foundation/Foundation.h"] ∧
    frameworkImports "VWO_FME" VWO_FME_h = [] ∧
    (∀ m : Image, Conforms VWO_FME_h m = true →
      ∀ b ∈ getVersionString m, 0 ≤ b ∧ b ≤ 255) := by
  refine ⟨rfl, rfl, rfl, by decide, ?_⟩
  intro m hm b hb
  exact ⟨Nat.zero_le b, ((conforms_iff m).1 hm).2 b hb⟩

/-- C6, at the module whose string is `"1"` with its terminator. -/
theorem public_surface_witness :
    Conforms VWO_FME_h sampleImage = true ∧
    ∀ b ∈ getVersionString sampleImage, 0 ≤ b ∧ b ≤ 255 :=
  ⟨by decide, public_surface.2.2.2.2 sampleImage (by decide)⟩

/-- C7: the header declares the two symbols and defines neither.  No declaration
has an initialiser or is a definition, the array is declared without a length,
and a module conforms to the header whatever number and whatever bytes, of
whatever length, it holds within the range of the two types.  So a property
that holds of every module conforming to the header holds of every number and
every byte sequence. -/
theorem header_only_declares :
    (∀ d ∈ declarations VWO_FME_h, d.init = none ∧ d.isDefinition = false) ∧
    (declarationOf VWO_FME_h "VWO_FMEVersionString").map (fun d => d.array) = some (some none) ∧
    (∀ bits bs, bits < 2 ^ 64 → (∀ b ∈ bs, b ≤ UCHAR_MAX) →
      Conforms VWO_FME_h { VWO_FMEVersionNumber := bits, VWO_FMEVersionString := bs } = true) ∧
    (∀ P : Image → Prop, (∀ m, Conforms VWO_FME_h m = true → P m) →
      ∀ bits bs, bits < 2 ^ 64 → (∀ b ∈ bs, b ≤ UCHAR_MAX) →
        P { VWO_FMEVersionNumber := bits, VWO_FMEVersionString := bs }) := by
  have hall : ∀ bits bs, bits < 2 ^ 64 → (∀ b ∈ bs, b ≤ UCHAR_MAX) →
      Conforms VWO_FME_h { VWO_FMEVersionNumber := bits, VWO_FMEVersionString := bs } = true :=
    fun bits bs h1 h2 => (conforms_iff _).2 ⟨h1, h2⟩
  refine ⟨?_, rfl, hall, fun P hP bits bs h1 h2 => hP _ (hall bits bs h1 h2)⟩
  intro d hd
  have hd2 : d = VWO_FMEVersionNumber_decl ∨ d = VWO_FMEVersionString_decl := by
    simpa [VWO_FME_h, declarations] using hd
  rcases hd2 with h | h <;> subst h <;> exact ⟨rfl, rfl⟩

/-- C7, at two modules that conform to the header and differ in the number, in
the length of the string and in its content. -/
theorem header_only_declares_witness :
    Conforms VWO_FME_h { VWO_FMEVersionNumber := one_bits, VWO_FMEVersionString := [] } = true ∧
    Conforms VWO_FME_h { VWO_FMEVersionNumber := two_bits, VWO_FMEVersionString := [50, 46, 51, 0] }
      = true :=
  ⟨header_only_declares.2.2.1 one_bits [] (by decide) (by simp),
   header_only_declares.2.2.1 two_bits [50, 46, 51, 0] (by decide) (by decide)⟩

end VWO_FME
